import Mathlib

/-!
# Verification of the batch file-renaming engine

A shallow embedding of the renaming engine of `rename.py` (shared by the GUI
worker `FileRenamerThread.run` in `gui.py`), together with theorems settling
the specification claims about it.

Modelling conventions:
* Python strings are `String` (a wrapper around `List Char`); character
  classes (`str.isdigit`, `\d`, `\s`, `str.lower`) are modelled at ASCII
  granularity, matching the behaviour on the ASCII filenames the program
  manipulates.
* Python `str(n)` for a non-negative integer is `natToStr`, a plain decimal
  renderer.
* The filesystem is a directory modelled as a list of entries carrying an
  identity (`id`, standing for the inode consulted by `Path.resolve()`),
  a current name, and an is-regular-file flag.
* The only fallible effect, `Path.rename`, is driven by an oracle
  `oracle : Nat → Bool` telling whether the rename attempted at a given
  1-based loop index raises; GUI cancellation (a flag polled at the top of
  each loop iteration) is modelled by `cancel : Option Nat`, the number of
  iterations allowed before the flag is observed cleared.
-/

/-- The ASCII digit character of value `n` (used with `n < 10`). -/
def dChar (n : Nat) : Char := Char.ofNat (48 + n)

/-- Decimal value of a list of digit characters, as computed by Python
`int(...)` on an all-digit string. -/
def listVal (l : List Char) : Nat := l.foldl (fun a c => 10 * a + (c.toNat - 48)) 0

/-- Fuel-driven decimal rendering: most-significant digit first. -/
def natToStrGo : Nat → Nat → List Char
  | 0, _ => []
  | fuel + 1, n => if n < 10 then [dChar n] else natToStrGo fuel (n / 10) ++ [dChar (n % 10)]

/-- Python `str(n)` for a natural number: plain decimal rendering. -/
def natToStr (n : Nat) : String := ⟨natToStrGo (n + 1) n⟩

/-- Python `str.isdigit()`: true iff the string is nonempty and every
character is a digit. -/
def pyIsDigitStr (s : String) : Bool := !s.isEmpty && s.data.all Char.isDigit

/-- Python `str.isdigit()` on a raw character list. -/
def pyIsDigitList (p : List Char) : Bool := !p.isEmpty && p.all Char.isDigit

/-- Python `str.zfill(width)` restricted to unsigned strings (the program only
calls it on all-digit strings): left-pad with zeros up to `width`. -/
def pyZfill (s : String) (width : Nat) : String :=
  if width ≤ s.length then s else ⟨List.replicate (width - s.length) '0' ++ s.data⟩

/-- The zero-padding step of `generate_new_filename`:
`if zero_num > 0 and new_name.isdigit(): new_name = new_name.zfill(zero_num + 1)`. -/
def applyZeroPad (new_name : String) (zero_num : Nat) : String :=
  if 0 < zero_num ∧ pyIsDigitStr new_name then pyZfill new_name (zero_num + 1) else new_name

/-- The trailing maximal digit run of a stem (the group captured by
`re.search(r'\D(\d+)$', ...)` when it matches). -/
def trailingRun (stem : String) : List Char :=
  (stem.data.reverse.takeWhile Char.isDigit).reverse

/-- Whether `re.search(r'\D(\d+)$', stem)` matches: the stem ends with a
nonempty digit run that is preceded by at least one (necessarily non-digit)
character. -/
def hasTrailingNumPattern (stem : String) : Bool :=
  let run := stem.data.reverse.takeWhile Char.isDigit
  !run.isEmpty && !(stem.data.reverse.drop run.length).isEmpty

/-- `extract_number_at_end` from `rename.py`: the trailing digit run as an
integer when `\D(\d+)$` matches, else 0. -/
def extract_number_at_end (stem : String) : Nat :=
  if hasTrailingNumPattern stem then listVal (trailingRun stem) else 0

/-- `extract_numbers_only` from `rename.py`: all digit characters of the
string, concatenated in order (`''.join(re.findall(r'\d+', s))`). -/
def extract_numbers_only (s : String) : String := ⟨s.data.filter Char.isDigit⟩

/-- `extract_text_only` from `rename.py`: the string with every digit
character removed (`re.sub(r'\d+', '', s)`). -/
def extract_text_only (s : String) : String := ⟨s.data.filter (fun c => !c.isDigit)⟩

/-- `re.sub(r'\s+', ' ', ...)`: collapse each maximal whitespace run to a
single space. The flag records whether the previous character was whitespace. -/
def collapseGo : Bool → List Char → List Char
  | _, [] => []
  | prevWs, c :: rest =>
    if c.isWhitespace then
      if prevWs then collapseGo true rest else ' ' :: collapseGo true rest
    else c :: collapseGo false rest

/-- Python `str.strip()`: drop leading and trailing whitespace. -/
def pyStripChars (l : List Char) : List Char :=
  ((l.dropWhile Char.isWhitespace).reverse.dropWhile Char.isWhitespace).reverse

/-- Position of the last `'.'` in a character list, if any. -/
def lastDotPos (l : List Char) : Option Nat :=
  match l.reverse.findIdx? (· == '.') with
  | none => none
  | some j => some (l.length - 1 - j)

/-- `pathlib` stem/suffix split: the suffix is the part from the last dot
onward, but only when that dot is neither the first nor the last character of
the name; otherwise the stem is the whole name and the suffix is empty. -/
def splitStemExt (s : String) : String × String :=
  match lastDotPos s.data with
  | some i =>
    if 0 < i ∧ i < s.data.length - 1 then (⟨s.data.take i⟩, ⟨s.data.drop i⟩)
    else (s, "")
  | none => (s, "")

/-- The per-policy candidate stem computed inside `generate_new_filename`,
before zero-padding and prefix/suffix assembly. `rename_type` is the raw
string tag; an unknown tag falls back to `'sequential'` as in the source. -/
def candidate_stem (rename_type stem : String) (index : Nat) : String :=
  if rename_type = "sequential" then natToStr index
  else if rename_type = "numbers_only" then
    let numbers := extract_numbers_only stem
    if numbers.isEmpty then natToStr index else numbers
  else if rename_type = "text_only" then
    let text : String := ⟨pyStripChars (collapseGo false (extract_text_only stem).data)⟩
    if text.isEmpty then "file_" ++ natToStr index else text
  else if rename_type = "numbers_only_at_end" then
    let number := extract_number_at_end stem
    if 0 < number then natToStr number else natToStr index
  else natToStr index

/-- `generate_new_filename` from `rename.py`: stem/extension split, per-policy
candidate stem, optional zero padding, then `prefix + name + suffix + ext`. -/
def generate_new_filename (name : String) (index : Nat)
    (rename_type pfx sfx : String) (zero_num : Nat) : String :=
  let se := splitStemExt name
  pfx ++ applyZeroPad (candidate_stem rename_type se.1 index) zero_num ++ sfx ++ se.2

-- Basic facts about the decimal renderer.

theorem str_append_data (a b : String) : (a ++ b).data = a.data ++ b.data := by
  cases a; cases b; rfl

theorem dChar_toNat {n : Nat} (h : n < 10) : (dChar n).toNat = 48 + n := by
  interval_cases n <;> decide

theorem listVal_append_singleton (l : List Char) (c : Char) :
    listVal (l ++ [c]) = 10 * listVal l + (c.toNat - 48) := by
  simp [listVal, List.foldl_append]

theorem natToStrGo_val {fuel n : Nat} (h : n < fuel) :
    listVal (natToStrGo fuel n) = n ∧ natToStrGo fuel n ≠ [] := by
  induction fuel generalizing n with
  | zero => omega
  | succ fuel ih =>
    by_cases h10 : n < 10
    · simp only [natToStrGo, if_pos h10]
      constructor
      · simp [listVal, dChar_toNat h10]
      · simp
    · simp only [natToStrGo, if_neg h10]
      have hlt : n / 10 < fuel := by
        have := Nat.div_lt_self (by omega : 0 < n) (by omega : 1 < 10)
        omega
      obtain ⟨hv, _⟩ := ih hlt
      constructor
      · rw [listVal_append_singleton, hv, dChar_toNat (Nat.mod_lt n (by omega))]
        omega
      · simp

theorem listVal_natToStr (n : Nat) : listVal (natToStr n).data = n :=
  (natToStrGo_val (Nat.lt_succ_self n)).1

theorem natToStr_injective : Function.Injective natToStr := by
  intro m n h
  have := listVal_natToStr m
  rw [h, listVal_natToStr n] at this
  omega

-- ## Claim C1: the zero-padding step

/-- C1 counterexample: the all-digit candidate `"100"` with `zeroPadWidth = 1`
satisfies the claim's padding condition, yet `generate_new_filename`'s padding
step leaves it unchanged, and the result has width 3, not `zeroPadWidth + 1 = 2`. -/
theorem c1_zero_padding_counterexample :
    pyIsDigitStr "100" = true ∧ applyZeroPad "100" 1 = "100" ∧
    (applyZeroPad "100" 1).length ≠ 1 + 1 := by
  decide

/-- C1 (amended): zero-filling is applied to the candidate stem exactly when
the candidate is a nonempty all-digit string and `zeroPadWidth > 0`; the
zero-fill prepends `zeroPadWidth + 1 - length` zeros, so the result has width
`max (zeroPadWidth + 1) length` (width exactly `zeroPadWidth + 1` when the
candidate is no longer than that, e.g. `"9"` with width 1 gives `"09"` and
with width 2 gives `"009"`); a candidate containing any non-digit character
is returned unpadded for every `zeroPadWidth`. -/
theorem c1_zero_padding :
    (∀ (c : String) (N : Nat), pyIsDigitStr c = true → 0 < N →
      applyZeroPad c N = ⟨List.replicate (N + 1 - c.length) '0' ++ c.data⟩ ∧
      (applyZeroPad c N).length = max (N + 1) c.length) ∧
    (∀ (c : String) (N : Nat), pyIsDigitStr c = false → applyZeroPad c N = c) ∧
    (∀ (c : String) (N : Nat), c.data.any (fun ch => !ch.isDigit) = true →
      applyZeroPad c N = c) ∧
    applyZeroPad "9" 1 = "09" ∧ applyZeroPad "9" 2 = "009" := by
  refine ⟨?_, ?_, ?_, by decide, by decide⟩
  · intro c N hdig hN
    have hpad : applyZeroPad c N = pyZfill c (N + 1) := by
      simp [applyZeroPad, hdig, hN]
    by_cases hlen : N + 1 ≤ c.length
    · have hrep : N + 1 - c.length = 0 := by omega
      constructor
      · rw [hpad, pyZfill, if_pos hlen, hrep]
        cases c
        simp
      · rw [hpad, pyZfill, if_pos hlen]
        have : max (N + 1) c.length = c.length := by omega
        rw [this]
    · constructor
      · rw [hpad, pyZfill, if_neg hlen]
      · rw [hpad, pyZfill, if_neg hlen]
        show (List.replicate (N + 1 - c.length) '0' ++ c.data).length = max (N + 1) c.length
        have hc : c.length = c.data.length := rfl
        rw [List.length_append, List.length_replicate]
        omega
  · intro c N hdig
    simp [applyZeroPad, hdig]
  · intro c N hnd
    have hall : c.data.all Char.isDigit = false := by
      simp only [List.any_eq_true, Bool.not_eq_true'] at hnd
      obtain ⟨ch, hmem, hch⟩ := hnd
      rw [List.all_eq_false]
      exact ⟨ch, hmem, by simp [hch]⟩
    have hdig : pyIsDigitStr c = false := by
      simp [pyIsDigitStr, hall]
    simp [applyZeroPad, hdig]

/-- C1 witness: the amended padding theorem applied at candidate `"9"`,
`zeroPadWidth = 1`. -/
theorem c1_zero_padding_witness :
    applyZeroPad "9" 1 = ⟨List.replicate (1 + 1 - String.length "9") '0' ++ String.data "9"⟩ ∧
    applyZeroPad "a1" 3 = "a1" :=
  ⟨(c1_zero_padding.1 "9" 1 (by decide) (by decide)).1,
   c1_zero_padding.2.2.1 "a1" 3 (by decide)⟩

-- ## Claim C2: the TrailingNumber (numbers_only_at_end) policy

/-- C2 counterexample: `"file123"` does match `[non-digit][digits]$` (the
`'e'` precedes the trailing run), so the candidate is `"123"`, not the
sequential index as the claim states; and `"a_0"` matches the pattern yet
yields the sequential index, because the code tests `number > 0` on the
extracted value. -/
theorem c2_trailing_number_counterexample :
    hasTrailingNumPattern "file123" = true ∧
    candidate_stem "numbers_only_at_end" "file123" 5 = "123" ∧
    hasTrailingNumPattern "a_0" = true ∧
    candidate_stem "numbers_only_at_end" "a_0" 5 = "5" := by
  decide

/-- C2 (amended): under the `numbers_only_at_end` policy the candidate stem is
the trailing digit run re-rendered as a plain decimal integer exactly when the
stem matches `[non-digit][digits]$` anchored at the stem end AND the run's
integer value is positive (`"PreviewFemale3D_9"` gives `"9"`,
`"document_final_2"` gives `"2"`, leading zeros are stripped: `"a_007"` gives
`"7"`); for every stem with no such pattern (purely-digit stems such as
`"123"`, or stems with no digits) and for stems whose trailing run is all
zeros, the candidate is the decimal 1-based sequential index. -/
theorem c2_trailing_number :
    (∀ (stem : String) (idx : Nat),
      hasTrailingNumPattern stem = true → 0 < listVal (trailingRun stem) →
      candidate_stem "numbers_only_at_end" stem idx = natToStr (listVal (trailingRun stem))) ∧
    (∀ (stem : String) (idx : Nat), hasTrailingNumPattern stem = false →
      candidate_stem "numbers_only_at_end" stem idx = natToStr idx) ∧
    (∀ (stem : String) (idx : Nat), listVal (trailingRun stem) = 0 →
      candidate_stem "numbers_only_at_end" stem idx = natToStr idx) ∧
    candidate_stem "numbers_only_at_end" "PreviewFemale3D_9" 4 = "9" ∧
    candidate_stem "numbers_only_at_end" "PreviewFemale3D_10" 4 = "10" ∧
    candidate_stem "numbers_only_at_end" "document_final_2" 4 = "2" ∧
    candidate_stem "numbers_only_at_end" "a_007" 4 = "7" := by
  refine ⟨?_, ?_, ?_, by decide, by decide, by decide, by decide⟩
  · intro stem idx hpat hval
    simp [candidate_stem, extract_number_at_end, hpat, hval]
  · intro stem idx hpat
    simp [candidate_stem, extract_number_at_end, hpat]
  · intro stem idx hval
    by_cases hpat : hasTrailingNumPattern stem
    · simp [candidate_stem, extract_number_at_end, hpat, hval]
    · simp [candidate_stem, extract_number_at_end, hpat]

/-- C2 witness: the amended theorem applied at stem `"PreviewFemale3D_9"`,
index 4, and at the patternless stem `"123"`. -/
theorem c2_trailing_number_witness :
    candidate_stem "numbers_only_at_end" "PreviewFemale3D_9" 4 =
      natToStr (listVal (trailingRun "PreviewFemale3D_9")) ∧
    candidate_stem "numbers_only_at_end" "123" 4 = natToStr 4 :=
  ⟨c2_trailing_number.1 "PreviewFemale3D_9" 4 (by decide) (by decide),
   c2_trailing_number.2.1 "123" 4 (by decide)⟩

-- ## Natural sort: `natural_sort_key` and the 'number' sort policy

/-- The run decomposition produced by `re.split(r'(\d+)', s)`: an alternating
list `[t0, d1, t1, ..., dn, tn]` of (possibly empty) digit-free gaps and
nonempty maximal digit runs, starting and ending with a gap. The flag says
whether the accumulator holds a digit run; the accumulator is reversed. -/
def partsGo : Bool → List Char → List Char → List (List Char)
  | false, acc, [] => [acc.reverse]
  | true, acc, [] => [acc.reverse, []]
  | false, acc, c :: cs =>
    if c.isDigit then acc.reverse :: partsGo true [c] cs else partsGo false (c :: acc) cs
  | true, acc, c :: cs =>
    if c.isDigit then partsGo true (c :: acc) cs else acc.reverse :: partsGo false [c] cs

/-- The split of a filename into digit / non-digit runs, `re.split` style. -/
def splitRuns (s : String) : List (List Char) := partsGo false [] s.data

/-- The per-part conversion inside `natural_sort_key`: a part passing
`str.isdigit()` becomes an integer, any other part is lowercased. -/
def partElem (p : List Char) : Sum String Nat :=
  if pyIsDigitList p then Sum.inr (listVal p) else Sum.inl ⟨p.map Char.toLower⟩

/-- `natural_sort_key` from `rename.py`: the mixed string/integer list Python
builds as the sort key. -/
def natural_sort_key (s : String) : List (Sum String Nat) := (splitRuns s).map partElem

/-- Python string comparison: lexicographic by code point, a proper prefix
ordering lower. -/
def cmpChars : List Char → List Char → Ordering
  | [], [] => .eq
  | [], _ :: _ => .lt
  | _ :: _, [] => .gt
  | a :: as, b :: bs =>
    match compare a.toNat b.toNat with
    | .eq => cmpChars as bs
    | r => r

/-- Python comparison of one sort-key element: strings compare as strings,
integers as integers, and a mixed `int`/`str` comparison raises `TypeError`
(modelled as `none`). -/
def pyElemCmp : Sum String Nat → Sum String Nat → Option Ordering
  | .inl a, .inl b => some (cmpChars a.data b.data)
  | .inr m, .inr n => some (compare m n)
  | .inl _, .inr _ => none
  | .inr _, .inl _ => none

/-- Python list comparison as used by `sorted` on the keys: positional, first
difference decides, a proper prefix ordering lower; `none` models the
`TypeError` raised on a mixed-type element comparison. -/
def pyListCmp : List (Sum String Nat) → List (Sum String Nat) → Option Ordering
  | [], [] => some .eq
  | [], _ :: _ => some .lt
  | _ :: _, [] => some .gt
  | x :: xs, y :: ys =>
    match pyElemCmp x y with
    | none => none
    | some .eq => pyListCmp xs ys
    | some r => some r

/-- Modelled from the spec's words for the refinement claim about
`ByNaturalNumber`: compare corresponding runs positionally, digit runs as
integers, other runs as case-insensitive text, a shorter run sequence that is
a proper prefix ordering lower. (The spec leaves a digit-run/text-run pairing
unspecified; such a pairing never occurs between two keys, and this reference
comparison falls back to case-insensitive text there.) -/
def spec_runs_compare : List (List Char) → List (List Char) → Ordering
  | [], [] => .eq
  | [], _ :: _ => .lt
  | _ :: _, [] => .gt
  | p :: ps, q :: qs =>
    let c := if pyIsDigitList p && pyIsDigitList q
             then compare (listVal p) (listVal q)
             else cmpChars (p.map Char.toLower) (q.map Char.toLower)
    match c with
    | .eq => spec_runs_compare ps qs
    | r => r

/-- Checker for the alternation shape of a run list: when the flag is true the
next part must fail `str.isdigit()` (a text gap), when false it must pass it
(a digit run); parts then alternate. -/
def altB : Bool → List (List Char) → Bool
  | _, [] => true
  | textTurn, p :: rest =>
    (if textTurn then !pyIsDigitList p else pyIsDigitList p) && altB (!textTurn) rest

/-- Checker for the alternation shape of a sort key: when the flag is true the
next element must be a string, when false an integer. -/
def altSumB : Bool → List (Sum String Nat) → Bool
  | _, [] => true
  | textTurn, x :: rest =>
    (match x with
     | Sum.inl _ => textTurn
     | Sum.inr _ => !textTurn) && altSumB (!textTurn) rest

theorem data_mk (l : List Char) : (String.mk l).data = l := rfl

theorem pyIsDigitList_eq_false_of_all_not {p : List Char}
    (h : ∀ c ∈ p, c.isDigit = false) : pyIsDigitList p = false := by
  cases p with
  | nil => rfl
  | cons c cs =>
    have hall : (c :: cs).all Char.isDigit = false := by
      rw [List.all_eq_false]
      exact ⟨c, by simp, by simp [h c (by simp)]⟩
    simp [pyIsDigitList, hall]

theorem pyIsDigitList_eq_true_of_all {p : List Char} (hne : p ≠ [])
    (h : ∀ c ∈ p, c.isDigit = true) : pyIsDigitList p = true := by
  have h2 : p.all Char.isDigit = true := by
    rw [List.all_eq_true]
    intro x hx
    exact h x hx
  have h1 : p.isEmpty = false := by
    cases p with
    | nil => exact absurd rfl hne
    | cons a as => rfl
  simp [pyIsDigitList, h1, h2]

/-- The `re.split` run decomposition alternates correctly, for any accumulator
matching the current flag. -/
theorem partsGo_alt : ∀ (cs acc : List Char),
    ((∀ c ∈ acc, c.isDigit = false) → altB true (partsGo false acc cs) = true) ∧
    (acc ≠ [] → (∀ c ∈ acc, c.isDigit = true) → altB false (partsGo true acc cs) = true) := by
  intro cs
  induction cs with
  | nil =>
    intro acc
    constructor
    · intro hacc
      have : pyIsDigitList acc.reverse = false :=
        pyIsDigitList_eq_false_of_all_not (by simpa using hacc)
      simp [partsGo, altB, this]
    · intro hne hacc
      have hrev : pyIsDigitList acc.reverse = true :=
        pyIsDigitList_eq_true_of_all (by simpa using hne) (by simpa using hacc)
      have h0 : pyIsDigitList ([] : List Char) = false := rfl
      simp [partsGo, altB, hrev, h0]
  | cons c cs ih =>
    intro acc
    constructor
    · intro hacc
      by_cases hd : c.isDigit
      · have hrev : pyIsDigitList acc.reverse = false :=
          pyIsDigitList_eq_false_of_all_not (by simpa using hacc)
        have hrest := (ih [c]).2 (by simp) (by simpa using hd)
        simp [partsGo, hd, altB, hrev, hrest]
      · have hrest := (ih (c :: acc)).1 (by
          intro x hx
          rcases List.mem_cons.mp hx with h | h
          · simpa [h] using hd
          · exact hacc x h)
        simp [partsGo, hd, hrest]
    · intro hne hacc
      by_cases hd : c.isDigit
      · have hrest := (ih (c :: acc)).2 (by simp) (by
          intro x hx
          rcases List.mem_cons.mp hx with h | h
          · simpa [h] using hd
          · exact hacc x h)
        simp [partsGo, hd, hrest]
      · have hrev : pyIsDigitList acc.reverse = true :=
          pyIsDigitList_eq_true_of_all (by simpa using hne) (by simpa using hacc)
        have hrest := (ih [c]).1 (by simpa using hd)
        simp [partsGo, hd, altB, hrev, hrest]

/-- Every filename's run decomposition alternates, starting with a text gap. -/
theorem splitRuns_alt (s : String) : altB true (splitRuns s) = true :=
  (partsGo_alt s.data []).1 (by simp)

/-- On a pair of run lists that alternate in the same phase, the Python
comparison of the mapped keys never hits a mixed-type pair and agrees with the
spec-side run comparison. -/
theorem pyListCmp_map_partElem : ∀ (ps : List (List Char)) (qs : List (List Char)) (flag : Bool),
    altB flag ps = true → altB flag qs = true →
    pyListCmp (ps.map partElem) (qs.map partElem) = some (spec_runs_compare ps qs) := by
  intro ps
  induction ps with
  | nil =>
    intro qs flag _ _
    cases qs <;> simp [pyListCmp, spec_runs_compare]
  | cons p ps ih =>
    intro qs flag hp hq
    cases qs with
    | nil => simp [pyListCmp, spec_runs_compare]
    | cons q qs =>
      simp only [altB, Bool.and_eq_true] at hp hq
      obtain ⟨hp1, hp2⟩ := hp
      obtain ⟨hq1, hq2⟩ := hq
      cases flag with
      | true =>
        have hp1' : pyIsDigitList p = false := by simpa using hp1
        have hq1' : pyIsDigitList q = false := by simpa using hq1
        have hrec := ih qs false hp2 hq2
        cases hc : cmpChars (p.map Char.toLower) (q.map Char.toLower) with
        | eq =>
          simp [pyListCmp, partElem, pyElemCmp, spec_runs_compare, hp1', hq1', hc,
            data_mk, hrec]
        | lt =>
          simp [pyListCmp, partElem, pyElemCmp, spec_runs_compare, hp1', hq1', hc, data_mk]
        | gt =>
          simp [pyListCmp, partElem, pyElemCmp, spec_runs_compare, hp1', hq1', hc, data_mk]
      | false =>
        have hp1' : pyIsDigitList p = true := by simpa using hp1
        have hq1' : pyIsDigitList q = true := by simpa using hq1
        have hrec := ih qs true hp2 hq2
        cases hc : compare (listVal p) (listVal q) with
        | eq =>
          simp [pyListCmp, partElem, pyElemCmp, spec_runs_compare, hp1', hq1', hc,
            data_mk, hrec]
        | lt =>
          simp [pyListCmp, partElem, pyElemCmp, spec_runs_compare, hp1', hq1', hc, data_mk]
        | gt =>
          simp [pyListCmp, partElem, pyElemCmp, spec_runs_compare, hp1', hq1', hc, data_mk]

-- ## Sorting and the orchestrator's data model

/-- A directory entry: an identity (standing for the inode consulted by
`Path.resolve()`), the current name, and whether it is a regular file. -/
structure FileEnt where
  id : Nat
  name : String
  isFile : Bool
deriving DecidableEq, Repr

/-- Stable insertion of `x` after every element `y` of the sorted prefix with
`le y x`; folding it over a list is a stable ascending sort, the behaviour of
Python `sorted`. -/
def insertSorted {α : Type} (le : α → α → Bool) (x : α) : List α → List α
  | [] => [x]
  | y :: ys => if le y x then y :: insertSorted le x ys else x :: y :: ys

/-- A stable ascending sort by the boolean relation `le`, modelling Python
`sorted(..., key=...)`. -/
def sortStable {α : Type} (le : α → α → Bool) (l : List α) : List α :=
  l.foldl (fun acc x => insertSorted le x acc) []

/-- Lowercasing of a whole string, Python `str.lower()` at ASCII granularity. -/
def lowerStr (s : String) : String := ⟨s.data.map Char.toLower⟩

/-- Key order for `sort_type = 'name'`: case-insensitive full-name order. -/
def nameLe (a b : FileEnt) : Bool :=
  cmpChars (lowerStr a.name).data (lowerStr b.name).data != Ordering.gt

/-- Key order for `sort_type = 'number'`: order of the `natural_sort_key`
lists under Python list comparison. (`none`, the `TypeError` case, never
arises for these keys; see the alternation theorems.) -/
def natLe (a b : FileEnt) : Bool :=
  pyListCmp (natural_sort_key a.name) (natural_sort_key b.name) != some Ordering.gt

/-- `sort_files` from `rename.py`: sort by the selected strategy; an unknown
tag falls back to `'name'`. -/
def sort_files (files : List FileEnt) (sort_type : String) : List FileEnt :=
  if sort_type = "name" then sortStable nameLe files
  else if sort_type = "number" then sortStable natLe files
  else sortStable nameLe files

-- ## Claim C4: the ByNaturalNumber comparison

/-- C4: comparing two filenames under the `'number'` policy is exactly the
spec's run-positional comparison — split into alternating digit / non-digit
runs, digit runs compared as integers, other runs as case-insensitive text,
a proper-prefix run sequence ordering lower — and in particular
`"file2.txt"` sorts before `"file10.txt"`. -/
theorem c4_natural_number_sort :
    (∀ a b : String, pyListCmp (natural_sort_key a) (natural_sort_key b) =
      some (spec_runs_compare (splitRuns a) (splitRuns b))) ∧
    pyListCmp (natural_sort_key "file2.txt") (natural_sort_key "file10.txt") =
      some Ordering.lt ∧
    (sort_files [⟨1, "file10.txt", true⟩, ⟨2, "file2.txt", true⟩] "number").map
      FileEnt.name = ["file2.txt", "file10.txt"] := by
  refine ⟨?_, by decide, by decide⟩
  intro a b
  exact pyListCmp_map_partElem (splitRuns a) (splitRuns b) true (splitRuns_alt a)
    (splitRuns_alt b)

/-- The mapped key of an alternating run list alternates as string, integer,
string, … in the same phase. -/
theorem altSumB_map_partElem : ∀ (ps : List (List Char)) (flag : Bool),
    altB flag ps = true → altSumB flag (ps.map partElem) = true := by
  intro ps
  induction ps with
  | nil => intro flag _; rfl
  | cons p ps ih =>
    intro flag hp
    simp only [altB, Bool.and_eq_true] at hp
    obtain ⟨hp1, hp2⟩ := hp
    cases flag with
    | true =>
      have hp1' : pyIsDigitList p = false := by simpa using hp1
      have hrec := ih false hp2
      simp [altSumB, partElem, hp1', hrec]
    | false =>
      have hp1' : pyIsDigitList p = true := by simpa using hp1
      have hrec := ih true hp2
      simp [altSumB, partElem, hp1', hrec]

-- ## Claim C9: key shape and totality of the 'number' comparison

/-- C9: every `natural_sort_key` starts with a (possibly empty, lowercased)
string and strictly alternates string, integer, string, …; consequently the
positional comparison of any two keys only ever compares a string with a
string or an integer with an integer, so it is total (never the `TypeError`
case) on every pair of filenames. -/
theorem c9_key_alternation_total :
    (∀ s : String, altSumB true (natural_sort_key s) = true) ∧
    (∀ a b : String,
      (pyListCmp (natural_sort_key a) (natural_sort_key b)).isSome = true) := by
  constructor
  · intro s
    exact altSumB_map_partElem (splitRuns s) true (splitRuns_alt s)
  · intro a b
    simp only [natural_sort_key]
    rw [pyListCmp_map_partElem (splitRuns a) (splitRuns b) true (splitRuns_alt a)
      (splitRuns_alt b)]
    rfl

-- ## Collision resolution: the used-names loop of `rename_files`

/-- The disambiguated name built inside the collision loop: the counter is
inserted before the extension of the originally generated filename
(`f"{stem}_{counter}{ext}"` with `stem`/`ext` recomputed from the original
candidate each round). -/
def mkDisamb (orig : String) (k : Nat) : String :=
  let se := splitStemExt orig
  se.1 ++ "_" ++ natToStr k ++ se.2

/-- The search of the `while new_filename in used_names` loop: try counters
`k, k+1, …` until a name is free; the fuel bounds the number of rounds (with
the fuel used by `resolveCollision` the search always succeeds). -/
def searchFree (used : List String) (orig : String) : Nat → Nat → String
  | k, 0 => mkDisamb orig k
  | k, fuel + 1 =>
    if mkDisamb orig k ∈ used then searchFree used orig (k + 1) fuel else mkDisamb orig k

/-- Collision resolution of `rename_files` (and of `FileRenamerThread.run`):
keep the generated candidate if unclaimed, otherwise take the first free
`stem_N` with `N = 1, 2, …`. -/
def resolveCollision (used : List String) (cand : String) : String :=
  if cand ∈ used then searchFree used cand 1 (used.length + 1) else cand

theorem mkDisamb_injective (orig : String) : Function.Injective (mkDisamb orig) := by
  intro k1 k2 h
  apply natToStr_injective
  have hd : (mkDisamb orig k1).data = (mkDisamb orig k2).data := by rw [h]
  simp only [mkDisamb, str_append_data] at hd
  have h1 := List.append_cancel_right hd
  have h2 := List.append_cancel_left h1
  exact String.ext h2

/-- Pigeonhole: among `used.length + 1` distinct disambiguated names at least
one is not in `used`. -/
theorem exists_free_disamb (used : List String) (orig : String) :
    ∃ j, j ≤ used.length ∧ mkDisamb orig (1 + j) ∉ used := by
  by_contra hcon
  push_neg at hcon
  have hsub : ((List.range (used.length + 1)).map (fun j => mkDisamb orig (1 + j))) ⊆ used := by
    intro x hx
    simp only [List.mem_map, List.mem_range] at hx
    obtain ⟨j, hj, rfl⟩ := hx
    exact hcon j (by omega)
  have hnd : ((List.range (used.length + 1)).map (fun j => mkDisamb orig (1 + j))).Nodup := by
    refine List.Nodup.map ?_ (List.nodup_range _)
    intro a b hab
    have := mkDisamb_injective orig hab
    omega
  have hlen := (List.subperm_of_subset hnd hsub).length_le
  simp only [List.length_map, List.length_range] at hlen
  omega

/-- The bounded search, run with enough fuel to reach a free counter, returns
the first free name at or after the starting counter. -/
theorem searchFree_spec (used : List String) (orig : String) :
    ∀ (fuel k : Nat), (∃ j, j < fuel ∧ mkDisamb orig (k + j) ∉ used) →
    ∃ j, j < fuel ∧ searchFree used orig k fuel = mkDisamb orig (k + j) ∧
      mkDisamb orig (k + j) ∉ used ∧ ∀ i, i < j → mkDisamb orig (k + i) ∈ used := by
  intro fuel
  induction fuel with
  | zero =>
    intro k ⟨j, hj, _⟩
    omega
  | succ fuel ih =>
    intro k ⟨j, hj, hfree⟩
    by_cases hk : mkDisamb orig k ∈ used
    · have hj0 : j ≠ 0 := by
        intro h
        rw [h] at hfree
        simp at hfree
        exact hfree hk
      have hex : ∃ j2, j2 < fuel ∧ mkDisamb orig (k + 1 + j2) ∉ used := by
        refine ⟨j - 1, by omega, ?_⟩
        have : k + 1 + (j - 1) = k + j := by omega
        rw [this]
        exact hfree
      obtain ⟨j2, hj2, heq, hfree2, hmin⟩ := ih (k + 1) hex
      refine ⟨j2 + 1, by omega, ?_, ?_, ?_⟩
      · rw [searchFree, if_pos hk, heq]
        congr 1
        omega
      · have : k + (j2 + 1) = k + 1 + j2 := by omega
        rw [this]
        exact hfree2
      · intro i hi
        cases i with
        | zero => simpa using hk
        | succ i =>
          have : k + (i + 1) = k + 1 + i := by omega
          rw [this]
          exact hmin i (by omega)
    · exact ⟨0, by omega, by simp [searchFree, hk], by simpa using hk, by omega⟩

/-- The resolved name is never one already claimed. -/
theorem resolveCollision_not_mem (used : List String) (cand : String) :
    resolveCollision used cand ∉ used := by
  rw [resolveCollision]
  by_cases hc : cand ∈ used
  · rw [if_pos hc]
    obtain ⟨j, hj, hfree⟩ := exists_free_disamb used cand
    obtain ⟨j2, _, heq, hfree2, _⟩ :=
      searchFree_spec used cand (used.length + 1) 1 ⟨j, by omega, hfree⟩
    rw [heq]
    exact hfree2
  · rw [if_neg hc]
    exact hc

/-- When the candidate is already claimed, the resolved name is the first
unclaimed `stem_N` with `N ≥ 1`. -/
theorem resolveCollision_first_free (used : List String) (cand : String)
    (hc : cand ∈ used) :
    ∃ k, 1 ≤ k ∧ resolveCollision used cand = mkDisamb cand k ∧
      mkDisamb cand k ∉ used ∧ ∀ i, 1 ≤ i → i < k → mkDisamb cand i ∈ used := by
  obtain ⟨j, hj, hfree⟩ := exists_free_disamb used cand
  obtain ⟨j2, _, heq, hfree2, hmin⟩ :=
    searchFree_spec used cand (used.length + 1) 1 ⟨j, by omega, hfree⟩
  refine ⟨1 + j2, by omega, ?_, hfree2, ?_⟩
  · rw [resolveCollision, if_pos hc]
    exact heq
  · intro i h1 h2
    have : i = 1 + (i - 1) := by omega
    rw [this]
    exact hmin (i - 1) (by omega)

-- ## The orchestrator: `rename_files` / `FileRenamerThread.run`

/-- The run configuration: sort and rename policy tags (raw strings, as in
the source), prefix, suffix, dry-run flag and zero-padding width. -/
structure Config where
  sort_type : String
  rename_type : String
  pfx : String
  sfx : String
  dry_run : Bool
  zero_num : Nat
deriving DecidableEq, Repr

/-- The state of the target path: absent, present but not a directory, or a
directory with its entries. -/
inductive DirState where
  | missing : DirState
  | notDir : DirState
  | dir : List FileEnt → DirState
deriving DecidableEq, Repr

/-- The log events the engine emits (structured stand-ins for the printed /
signalled messages). -/
inductive LogEv where
  | errNotFound : LogEv
  | errNotDir : LogEv
  | noFiles : LogEv
  | foundFiles : Nat → LogEv
  | targetExists : String → LogEv
  | preview : Nat → String → String → LogEv
  | renamed : Nat → String → String → LogEv
  | renameErr : String → LogEv
  | stopped : LogEv
deriving DecidableEq, Repr

/-- `get_files_in_folder`: an absent path or a non-directory produces an
error message and an empty list (no exception is raised); a directory yields
its regular files. -/
def get_files_in_folder : DirState → List LogEv × List FileEnt
  | .missing => ([.errNotFound], [])
  | .notDir => ([.errNotDir], [])
  | .dir es => ([], es.filter (fun e => e.isFile))

/-- All entries of the path, used as the filesystem consulted by
`new_path.exists()` / `Path.rename` during a run. -/
def dirEntries : DirState → List FileEnt
  | .dir es => es
  | _ => []

/-- The mutable state of one run: current directory contents, the names
claimed so far (`used_names`), the two counters and the log. -/
structure RunState where
  fs : List FileEnt
  used : List String
  succ : Nat
  fail : Nat
  log : List LogEv
deriving DecidableEq, Repr

/-- The final destination filename of an entry: the generated candidate,
disambiguated against the names already claimed in this run. -/
def entryFinalName (cfg : Config) (st : RunState) (e : FileEnt) (idx : Nat) : String :=
  resolveCollision st.used
    (generate_new_filename e.name idx cfg.rename_type cfg.pfx cfg.sfx cfg.zero_num)

/-- The pre-existing-target check
`new_path.exists() and new_path.resolve() != file_path.resolve()`: some entry
currently carries the target name and is not the entry being renamed. -/
def conflictB (fs : List FileEnt) (e : FileEnt) (target : String) : Bool :=
  fs.any (fun f => f.name == target && f.id != e.id)

/-- One iteration of the rename loop: claim the resolved name, then fail on a
pre-existing distinct target, else preview (dry run) or attempt the rename,
which raises exactly when the oracle says so at this index. -/
def processEntry (cfg : Config) (oracle : Nat → Bool) (st : RunState)
    (e : FileEnt) (idx : Nat) : RunState :=
  let fn := entryFinalName cfg st e idx
  let used2 := st.used ++ [fn]
  if conflictB st.fs e fn then
    { st with used := used2, fail := st.fail + 1, log := st.log ++ [.targetExists fn] }
  else if cfg.dry_run then
    { st with used := used2, succ := st.succ + 1, log := st.log ++ [.preview idx e.name fn] }
  else if oracle idx then
    { st with used := used2, fail := st.fail + 1, log := st.log ++ [.renameErr e.name] }
  else
    { fs := st.fs.map (fun f => if f.id == e.id then { f with name := fn } else f),
      used := used2, succ := st.succ + 1, fail := st.fail,
      log := st.log ++ [.renamed idx e.name fn] }

/-- Cooperative cancellation, polled at the top of each iteration: with
`cancel = some k` the flag is observed cleared before iteration `k + 1`. -/
def stopAt : Option Nat → Nat → Bool
  | none, _ => false
  | some k, idx => k < idx

/-- The rename loop over the sorted entries, with 1-based indices. -/
def runLoop (cfg : Config) (oracle : Nat → Bool) (cancel : Option Nat) :
    RunState → List FileEnt → Nat → RunState
  | st, [], _ => st
  | st, e :: es, idx =>
    if stopAt cancel idx then { st with log := st.log ++ [.stopped] }
    else runLoop cfg oracle cancel (processEntry cfg oracle st e idx) es (idx + 1)

/-- The outcome of one run: counts, total enumerated, final directory
contents, claimed names and log. -/
structure RunResult where
  succ : Nat
  fail : Nat
  total : Nat
  fs : List FileEnt
  used : List String
  log : List LogEv
deriving DecidableEq, Repr

/-- The orchestrator `rename_files` (the same enumerate → sort → loop shape
as `FileRenamerThread.run`): enumerate, return zero counts for an empty file
list, else sort and run the rename loop. -/
def rename_files (d : DirState) (cfg : Config) (oracle : Nat → Bool)
    (cancel : Option Nat) : RunResult :=
  let lf := get_files_in_folder d
  if lf.2.isEmpty then
    ⟨0, 0, 0, dirEntries d, [], lf.1 ++ [.noFiles]⟩
  else
    let sorted := sort_files lf.2 cfg.sort_type
    let final := runLoop cfg oracle cancel
      ⟨dirEntries d, [], 0, 0, lf.1 ++ [.foundFiles lf.2.length]⟩ sorted 1
    ⟨final.succ, final.fail, lf.2.length, final.fs, final.used, final.log⟩

-- Structural lemmas about one loop iteration.

theorem processEntry_used (cfg : Config) (oracle : Nat → Bool) (st : RunState)
    (e : FileEnt) (idx : Nat) :
    (processEntry cfg oracle st e idx).used = st.used ++ [entryFinalName cfg st e idx] := by
  rw [processEntry]
  split
  · rfl
  · split
    · rfl
    · split <;> rfl

theorem processEntry_counts (cfg : Config) (oracle : Nat → Bool) (st : RunState)
    (e : FileEnt) (idx : Nat) :
    (processEntry cfg oracle st e idx).succ + (processEntry cfg oracle st e idx).fail =
      st.succ + st.fail + 1 := by
  rw [processEntry]
  split
  · simp <;> omega
  · split
    · simp <;> omega
    · split <;> (simp <;> omega)

theorem processEntry_fs_dry (cfg : Config) (oracle : Nat → Bool) (st : RunState)
    (e : FileEnt) (idx : Nat) (hdry : cfg.dry_run = true) :
    (processEntry cfg oracle st e idx).fs = st.fs := by
  rw [processEntry]
  split
  · rfl
  · simp [hdry]

/-- Number of iterations the loop performs starting at index `idx` on a list
of length `n`, given the cancellation point. -/
def procCount : Option Nat → Nat → Nat → Nat
  | none, _, n => n
  | some k, idx, n => min n (k + 1 - idx)

theorem runLoop_counts (cfg : Config) (oracle : Nat → Bool) (cancel : Option Nat) :
    ∀ (es : List FileEnt) (st : RunState) (idx : Nat),
    (runLoop cfg oracle cancel st es idx).succ + (runLoop cfg oracle cancel st es idx).fail =
      st.succ + st.fail + procCount cancel idx es.length := by
  intro es
  induction es with
  | nil =>
    intro st idx
    cases cancel <;> simp [runLoop, procCount]
  | cons e es ih =>
    intro st idx
    by_cases hstop : stopAt cancel idx
    · rw [runLoop, if_pos hstop]
      cases cancel with
      | none => simp [stopAt] at hstop
      | some k =>
        simp only [stopAt, decide_eq_true_eq] at hstop
        have hz : procCount (some k) idx (es.length + 1) = 0 := by
          simp only [procCount, Nat.min_def]
          split <;> omega
        simp only [List.length_cons, hz]
        simp
    · rw [runLoop, if_neg hstop]
      rw [ih (processEntry cfg oracle st e idx) (idx + 1)]
      rw [processEntry_counts]
      cases cancel with
      | none =>
        simp only [procCount, List.length_cons]
        omega
      | some k =>
        simp only [stopAt, decide_eq_true_eq] at hstop
        simp only [procCount, List.length_cons, Nat.min_def]
        split <;> split <;> omega

theorem runLoop_used_nodup (cfg : Config) (oracle : Nat → Bool) (cancel : Option Nat) :
    ∀ (es : List FileEnt) (st : RunState) (idx : Nat), st.used.Nodup →
    (runLoop cfg oracle cancel st es idx).used.Nodup := by
  intro es
  induction es with
  | nil => intro st idx h; simpa [runLoop] using h
  | cons e es ih =>
    intro st idx h
    by_cases hstop : stopAt cancel idx
    · rw [runLoop, if_pos hstop]
      simpa using h
    · rw [runLoop, if_neg hstop]
      apply ih
      rw [processEntry_used]
      rw [List.nodup_append]
      exact ⟨h, List.nodup_singleton _, by
        intro a ha hb
        simp only [List.mem_singleton] at hb
        subst hb
        exact resolveCollision_not_mem st.used _ ha⟩

theorem runLoop_fs_dry (cfg : Config) (oracle : Nat → Bool) (cancel : Option Nat)
    (hdry : cfg.dry_run = true) :
    ∀ (es : List FileEnt) (st : RunState) (idx : Nat),
    (runLoop cfg oracle cancel st es idx).fs = st.fs := by
  intro es
  induction es with
  | nil => intro st idx; rfl
  | cons e es ih =>
    intro st idx
    by_cases hstop : stopAt cancel idx
    · rw [runLoop, if_pos hstop]
    · rw [runLoop, if_neg hstop, ih, processEntry_fs_dry _ _ _ _ _ hdry]

theorem insertSorted_length {α : Type} (le : α → α → Bool) (x : α) :
    ∀ l : List α, (insertSorted le x l).length = l.length + 1 := by
  intro l
  induction l with
  | nil => rfl
  | cons y ys ih =>
    rw [insertSorted]
    split
    · simp [ih]
    · simp

theorem sortStable_length {α : Type} (le : α → α → Bool) (l : List α) :
    (sortStable le l).length = l.length := by
  suffices h : ∀ (l acc : List α),
      (l.foldl (fun acc x => insertSorted le x acc) acc).length = acc.length + l.length by
    simpa using h l []
  intro l
  induction l with
  | nil => intro acc; simp
  | cons x xs ih =>
    intro acc
    rw [List.foldl_cons, ih, insertSorted_length]
    simp only [List.length_cons]
    omega

theorem sort_files_length (files : List FileEnt) (sort_type : String) :
    (sort_files files sort_type).length = files.length := by
  rw [sort_files]
  split
  · exact sortStable_length _ _
  · split <;> exact sortStable_length _ _

/-- The loop state reached by a run over a nonempty file list (a name for the
corresponding subterm of `rename_files`). -/
def loopResult (d : DirState) (cfg : Config) (oracle : Nat → Bool)
    (cancel : Option Nat) : RunState :=
  runLoop cfg oracle cancel
    ⟨dirEntries d, [], 0, 0,
      (get_files_in_folder d).1 ++ [.foundFiles (get_files_in_folder d).2.length]⟩
    (sort_files (get_files_in_folder d).2 cfg.sort_type) 1

theorem rename_files_empty (d : DirState) (cfg : Config) (oracle : Nat → Bool)
    (cancel : Option Nat) (h : (get_files_in_folder d).2.isEmpty = true) :
    rename_files d cfg oracle cancel =
      ⟨0, 0, 0, dirEntries d, [], (get_files_in_folder d).1 ++ [.noFiles]⟩ := by
  simp [rename_files, h]

theorem rename_files_nonempty (d : DirState) (cfg : Config) (oracle : Nat → Bool)
    (cancel : Option Nat) (h : (get_files_in_folder d).2.isEmpty = false) :
    rename_files d cfg oracle cancel =
      ⟨(loopResult d cfg oracle cancel).succ, (loopResult d cfg oracle cancel).fail,
       (get_files_in_folder d).2.length, (loopResult d cfg oracle cancel).fs,
       (loopResult d cfg oracle cancel).used, (loopResult d cfg oracle cancel).log⟩ := by
  simp [rename_files, loopResult, h]

theorem loopResult_counts (d : DirState) (cfg : Config) (oracle : Nat → Bool)
    (cancel : Option Nat) :
    (loopResult d cfg oracle cancel).succ + (loopResult d cfg oracle cancel).fail =
      procCount cancel 1 (get_files_in_folder d).2.length := by
  rw [loopResult, runLoop_counts, sort_files_length]
  simp

-- ## Claim C3: final destination names are pairwise distinct

/-- C3: across one run — for every directory state, configuration, rename
oracle and cancellation point — the claimed final destination filenames are
pairwise distinct; a candidate equal to an already-claimed name is replaced
by the first unclaimed `stem_N` (`N = 1, 2, …`, inserted before the
extension), and in particular a second claim of `"5.mp4"` resolves to
`"5_1.mp4"`. -/
theorem c3_final_names_distinct :
    (∀ (d : DirState) (cfg : Config) (oracle : Nat → Bool) (cancel : Option Nat),
      (rename_files d cfg oracle cancel).used.Nodup) ∧
    (∀ (used : List String) (cand : String), cand ∈ used →
      ∃ k, 1 ≤ k ∧ resolveCollision used cand = mkDisamb cand k ∧
        mkDisamb cand k ∉ used ∧ ∀ i, 1 ≤ i → i < k → mkDisamb cand i ∈ used) ∧
    resolveCollision ["5.mp4"] "5.mp4" = "5_1.mp4" := by
  refine ⟨?_, resolveCollision_first_free, by decide⟩
  intro d cfg oracle cancel
  by_cases h : (get_files_in_folder d).2.isEmpty
  · rw [rename_files_empty d cfg oracle cancel h]
    simp
  · rw [rename_files_nonempty d cfg oracle cancel (by simpa using h)]
    exact runLoop_used_nodup cfg oracle cancel _ _ _ (by simp)

/-- C3 witness: the collision-resolution part of the theorem applied at the
claimed set `["5.mp4"]` and candidate `"5.mp4"`. -/
theorem c3_final_names_distinct_witness :
    ∃ k, 1 ≤ k ∧ resolveCollision ["5.mp4"] "5.mp4" = mkDisamb "5.mp4" k ∧
      mkDisamb "5.mp4" k ∉ ["5.mp4"] ∧
      ∀ i, 1 ≤ i → i < k → mkDisamb "5.mp4" i ∈ ["5.mp4"] :=
  c3_final_names_distinct.2.1 ["5.mp4"] "5.mp4" (by decide)

-- ## Claim C5: count bookkeeping

/-- C5: for every directory state, configuration, rename oracle and
cancellation point, `successCount + failureCount ≤ totalCount` (the number of
files enumerated), with equality whenever no cancellation occurs. -/
theorem c5_counts :
    ∀ (d : DirState) (cfg : Config) (oracle : Nat → Bool) (cancel : Option Nat),
      (rename_files d cfg oracle cancel).succ + (rename_files d cfg oracle cancel).fail ≤
        (rename_files d cfg oracle cancel).total ∧
      (cancel = none →
        (rename_files d cfg oracle cancel).succ + (rename_files d cfg oracle cancel).fail =
          (rename_files d cfg oracle cancel).total) := by
  intro d cfg oracle cancel
  by_cases h : (get_files_in_folder d).2.isEmpty
  · rw [rename_files_empty d cfg oracle cancel h]
    exact ⟨Nat.le_refl 0, fun _ => rfl⟩
  · rw [rename_files_nonempty d cfg oracle cancel (by simpa using h)]
    simp only [loopResult_counts]
    constructor
    · cases cancel with
      | none => exact Nat.le_refl _
      | some k => exact Nat.min_le_left _ _
    · intro hc
      subst hc
      rfl

/-- C5 witness: equality of the counts and the total on a concrete
uncancelled run. -/
theorem c5_counts_witness :
    (rename_files (.dir [⟨1, "b.txt", true⟩]) ⟨"name", "sequential", "", "", false, 0⟩
        (fun _ => false) none).succ +
      (rename_files (.dir [⟨1, "b.txt", true⟩]) ⟨"name", "sequential", "", "", false, 0⟩
        (fun _ => false) none).fail =
    (rename_files (.dir [⟨1, "b.txt", true⟩]) ⟨"name", "sequential", "", "", false, 0⟩
        (fun _ => false) none).total :=
  (c5_counts (.dir [⟨1, "b.txt", true⟩]) ⟨"name", "sequential", "", "", false, 0⟩
    (fun _ => false) none).2 rfl

-- ## Claim C6: dry run versus real run

/-- C6 counterexample: directory `{2.txt, a.txt}`, sorted by name and renamed
sequentially. The dry run reports 1 success and 1 failure (`a.txt → 2.txt` is
blocked because `2.txt` still exists), while the real run reports 2 successes
and no failures (renaming `2.txt → 1.txt` first frees the name `2.txt`). -/
theorem c6_dry_run_counterexample :
    (rename_files (.dir [⟨1, "2.txt", true⟩, ⟨2, "a.txt", true⟩])
      ⟨"name", "sequential", "", "", true, 0⟩ (fun _ => false) none).succ = 1 ∧
    (rename_files (.dir [⟨1, "2.txt", true⟩, ⟨2, "a.txt", true⟩])
      ⟨"name", "sequential", "", "", true, 0⟩ (fun _ => false) none).fail = 1 ∧
    (rename_files (.dir [⟨1, "2.txt", true⟩, ⟨2, "a.txt", true⟩])
      ⟨"name", "sequential", "", "", false, 0⟩ (fun _ => false) none).succ = 2 ∧
    (rename_files (.dir [⟨1, "2.txt", true⟩, ⟨2, "a.txt", true⟩])
      ⟨"name", "sequential", "", "", false, 0⟩ (fun _ => false) none).fail = 0 := by
  decide

/-- C6 (amended): a dry run leaves every file's name unchanged on disk, and
its success and failure counts have the same sum as those of a real run over
the same inputs (both sums equal the number of files enumerated, for every
rename oracle of the real run and every common cancellation point); the
individual success/failure split may differ, because a real run frees
original names as it renames while a dry run's pre-existing-target check
still sees them occupied. -/
theorem c6_dry_run :
    ∀ (d : DirState) (cfg : Config) (oracle oracle2 : Nat → Bool) (cancel : Option Nat),
      (rename_files d { cfg with dry_run := true } oracle cancel).fs = dirEntries d ∧
      (rename_files d { cfg with dry_run := true } oracle cancel).succ +
          (rename_files d { cfg with dry_run := true } oracle cancel).fail =
        (rename_files d { cfg with dry_run := false } oracle2 cancel).succ +
          (rename_files d { cfg with dry_run := false } oracle2 cancel).fail := by
  intro d cfg oracle oracle2 cancel
  by_cases h : (get_files_in_folder d).2.isEmpty
  · rw [rename_files_empty d _ oracle cancel h, rename_files_empty d _ oracle2 cancel h]
    exact ⟨rfl, rfl⟩
  · rw [rename_files_nonempty d _ oracle cancel (by simpa using h),
      rename_files_nonempty d _ oracle2 cancel (by simpa using h)]
    constructor
    · show (loopResult d { cfg with dry_run := true } oracle cancel).fs = dirEntries d
      rw [loopResult, runLoop_fs_dry _ _ _ rfl]
    · show (loopResult d _ oracle cancel).succ + (loopResult d _ oracle cancel).fail =
        (loopResult d _ oracle2 cancel).succ + (loopResult d _ oracle2 cancel).fail
      rw [loopResult_counts, loopResult_counts]

-- ## Claim C7: precondition failures

/-- C7 counterexample: `get_files_in_folder` does not raise on a missing path
or a non-directory — it returns an error log entry and an empty list — and
the orchestrator's resulting counts `(0, 0, 0)` are identical to those of a
run over an empty directory. -/
theorem c7_precondition_counterexample :
    get_files_in_folder .missing = ([LogEv.errNotFound], []) ∧
    get_files_in_folder .notDir = ([LogEv.errNotDir], []) ∧
    (rename_files .missing ⟨"name", "sequential", "", "", false, 0⟩
        (fun _ => false) none).succ =
      (rename_files (.dir []) ⟨"name", "sequential", "", "", false, 0⟩
        (fun _ => false) none).succ ∧
    (rename_files .missing ⟨"name", "sequential", "", "", false, 0⟩
        (fun _ => false) none).fail =
      (rename_files (.dir []) ⟨"name", "sequential", "", "", false, 0⟩
        (fun _ => false) none).fail ∧
    (rename_files .missing ⟨"name", "sequential", "", "", false, 0⟩
        (fun _ => false) none).total =
      (rename_files (.dir []) ⟨"name", "sequential", "", "", false, 0⟩
        (fun _ => false) none).total := by
  decide

/-- C7 (amended): for a path that does not exist, enumeration logs a
does-not-exist error and returns an empty list rather than raising; for an
existing non-directory it logs a not-a-directory error and returns an empty
list; the orchestrator then reports zero counts — the same `(0, 0, 0)` as a
genuinely empty directory — with no per-file processing (no per-file log
events, no filesystem change, no claimed names), the three outcomes being
distinguishable only by the logged messages. -/
theorem c7_precondition :
    ∀ (cfg : Config) (oracle : Nat → Bool) (cancel : Option Nat),
      rename_files .missing cfg oracle cancel =
        ⟨0, 0, 0, [], [], [.errNotFound, .noFiles]⟩ ∧
      rename_files .notDir cfg oracle cancel =
        ⟨0, 0, 0, [], [], [.errNotDir, .noFiles]⟩ ∧
      rename_files (.dir []) cfg oracle cancel =
        ⟨0, 0, 0, [], [], [.noFiles]⟩ ∧
      ([LogEv.errNotFound, LogEv.noFiles] ≠ [LogEv.noFiles] ∧
        [LogEv.errNotDir, LogEv.noFiles] ≠ [LogEv.noFiles] ∧
        [LogEv.errNotFound, LogEv.noFiles] ≠ [LogEv.errNotDir, LogEv.noFiles]) := by
  intro cfg oracle cancel
  exact ⟨rfl, rfl, rfl, by decide, by decide, by decide⟩

-- ## Claim C8: per-entry failures are local

/-- C8: whenever the resolved destination name is carried by a distinct
existing entry, or the attempted rename raises, the entry fails locally: the
failure count is incremented, the success count and the filesystem are
unchanged, a specific error is logged, and the loop goes on to process every
remaining entry (an uncancelled continuation still accounts for all of them). -/
theorem c8_per_entry_failure_local :
    ∀ (cfg : Config) (oracle : Nat → Bool) (st : RunState) (e : FileEnt) (idx : Nat),
      (conflictB st.fs e (entryFinalName cfg st e idx) = true ∨
        (conflictB st.fs e (entryFinalName cfg st e idx) = false ∧ cfg.dry_run = false ∧
          oracle idx = true)) →
      (processEntry cfg oracle st e idx).fail = st.fail + 1 ∧
      (processEntry cfg oracle st e idx).succ = st.succ ∧
      (processEntry cfg oracle st e idx).fs = st.fs ∧
      ((processEntry cfg oracle st e idx).log =
          st.log ++ [.targetExists (entryFinalName cfg st e idx)] ∨
        (processEntry cfg oracle st e idx).log = st.log ++ [.renameErr e.name]) ∧
      (∀ (es : List FileEnt) (idx2 : Nat),
        (runLoop cfg oracle none (processEntry cfg oracle st e idx) es idx2).succ +
          (runLoop cfg oracle none (processEntry cfg oracle st e idx) es idx2).fail =
        st.succ + st.fail + 1 + es.length) := by
  intro cfg oracle st e idx h
  have hcont : ∀ (es : List FileEnt) (idx2 : Nat),
      (runLoop cfg oracle none (processEntry cfg oracle st e idx) es idx2).succ +
        (runLoop cfg oracle none (processEntry cfg oracle st e idx) es idx2).fail =
      st.succ + st.fail + 1 + es.length := by
    intro es idx2
    rw [runLoop_counts, processEntry_counts]
    rfl
  rcases h with hc | ⟨hc, hdry, hor⟩
  · exact ⟨by simp [processEntry, hc], by simp [processEntry, hc],
      by simp [processEntry, hc], Or.inl (by simp [processEntry, hc]), hcont⟩
  · exact ⟨by simp [processEntry, hc, hdry, hor], by simp [processEntry, hc, hdry, hor],
      by simp [processEntry, hc, hdry, hor],
      Or.inr (by simp [processEntry, hc, hdry, hor]), hcont⟩

/-- C8 witness: the theorem applied at a concrete conflicting entry —
`x.txt` is to become `1.txt`, which a distinct file already carries. -/
theorem c8_per_entry_failure_local_witness :
    (processEntry ⟨"name", "sequential", "", "", false, 0⟩ (fun _ => false)
        ⟨[⟨1, "x.txt", true⟩, ⟨2, "1.txt", true⟩], [], 0, 0, []⟩ ⟨1, "x.txt", true⟩ 1).fail =
      0 + 1 ∧
    (processEntry ⟨"name", "sequential", "", "", false, 0⟩ (fun _ => false)
        ⟨[⟨1, "x.txt", true⟩, ⟨2, "1.txt", true⟩], [], 0, 0, []⟩ ⟨1, "x.txt", true⟩ 1).succ =
      0 :=
  ⟨(c8_per_entry_failure_local ⟨"name", "sequential", "", "", false, 0⟩ (fun _ => false)
      ⟨[⟨1, "x.txt", true⟩, ⟨2, "1.txt", true⟩], [], 0, 0, []⟩ ⟨1, "x.txt", true⟩ 1
      (Or.inl (by decide))).1,
   (c8_per_entry_failure_local ⟨"name", "sequential", "", "", false, 0⟩ (fun _ => false)
      ⟨[⟨1, "x.txt", true⟩, ⟨2, "1.txt", true⟩], [], 0, 0, []⟩ ⟨1, "x.txt", true⟩ 1
      (Or.inl (by decide))).2.1⟩

-- ## Claim C10: names are claimed before the check and stay reserved

/-- C10: every branch of one loop iteration — success, pre-existing-target
failure, and raised-rename failure alike — extends the claimed-name set with
the entry's resolved final name, which was not claimed before; consequently a
later entry whose generated candidate equals any claimed name (a failed
entry's included) is disambiguated to a fresh name instead of reusing it. -/
theorem c10_claim_before_check :
    (∀ (cfg : Config) (oracle : Nat → Bool) (st : RunState) (e : FileEnt) (idx : Nat),
      (processEntry cfg oracle st e idx).used = st.used ++ [entryFinalName cfg st e idx]) ∧
    (∀ (cfg : Config) (st : RunState) (e : FileEnt) (idx : Nat),
      entryFinalName cfg st e idx ∉ st.used) ∧
    (∀ (used : List String) (cand : String), cand ∈ used →
      resolveCollision used cand ≠ cand ∧ resolveCollision used cand ∉ used) := by
  refine ⟨processEntry_used, ?_, ?_⟩
  · intro cfg st e idx
    exact resolveCollision_not_mem st.used _
  · intro used cand hc
    refine ⟨?_, resolveCollision_not_mem used cand⟩
    intro h
    apply resolveCollision_not_mem used cand
    rw [h]
    exact hc

/-- C10 witness: the disambiguation part of the theorem applied at the
claimed set `["1.txt"]` and the colliding candidate `"1.txt"`. -/
theorem c10_claim_before_check_witness :
    resolveCollision ["1.txt"] "1.txt" ≠ "1.txt" ∧
    resolveCollision ["1.txt"] "1.txt" ∉ ["1.txt"] :=
  c10_claim_before_check.2.2 ["1.txt"] "1.txt" (by decide)
